import Mathlib

/-!
Shallow embedding of the stroke-capture and classification pipeline of
`src/window.rs` (TeXMatchWindow). Points use exact rational coordinates;
strokes are point lists in insertion order; the window's drawing state,
drag-gesture handlers, reset handler, renderer, classifier worker loop and
result-projection loop are translated as explicit state-passing functions.
Fallible operations (the `unwrap` in the drag-update handler) return
`Option`.
-/

/-- A 2D point, as `detexify::Point {x, y}`. Coordinates are modelled as
exact rationals. -/
structure Point where
  x : ℚ
  y : ℚ
  deriving DecidableEq, Repr

/-- Componentwise addition, as used to resolve a drag-update delta against
the gesture anchor (`prev_x + x`, `prev_y + y` in the handler). -/
def Point.add (p d : Point) : Point :=
  { x := p.x + d.x, y := p.y + d.y }

/-- A stroke: the ordered list of its points (`detexify::Stroke`;
`add_point` appends, `points()` iterates in insertion order). -/
abbrev Stroke := List Point

/-- A classification score, as `detexify::Score {id, score}`. -/
structure Score where
  id : String
  score : ℚ
  deriving DecidableEq, Repr

/-- The drawing/pipeline state owned by the UI thread: the fields of
`imp::TeXMatchWindow` that the claims concern, plus the request channel's
queued contents and the symbol list store's displayed ids. -/
structure WindowState where
  /-- `strokes: RefCell<Vec<detexify::Stroke>>` — the finalized strokes. -/
  strokes : List Stroke
  /-- `current_stroke: RefCell<detexify::Stroke>` — the in-progress stroke. -/
  currentStroke : Stroke
  /-- `surface: RefCell<Option<cairo::ImageSurface>>`, abstracted to its
  dimensions. -/
  surface : Option (Int × Int)
  /-- `drawing_area.content_width()` at the moment of a call. -/
  canvasWidth : Int
  /-- `drawing_area.content_height()` at the moment of a call. -/
  canvasHeight : Int
  /-- Requests queued on the `std::sync::mpsc` request channel, FIFO:
  each is the cloned `strokes` list sent by `classify`. -/
  requests : List (List Stroke)
  /-- The ids held by the `symbols` list store backing `symbol_list`. -/
  displayed : List String
  /-- Whether `drawing_area.queue_draw()` has been requested. -/
  redrawQueued : Bool
  deriving DecidableEq, Repr

/-- The initial state at window construction: no strokes, empty current
stroke, no surface yet, nothing queued or displayed. Canvas dimensions are
fixed at 300×300 (the window is not resizable). -/
def init0 : WindowState :=
  { strokes := [], currentStroke := [], surface := none,
    canvasWidth := 300, canvasHeight := 300,
    requests := [], displayed := [], redrawQueued := false }

/-- `classify`: clones the finalized `strokes` list and sends it on the
request channel. -/
def classify (s : WindowState) : WindowState :=
  { s with requests := s.requests ++ [s.strokes] }

/-- `create_surface`: replaces the surface with a fresh one of the given
dimensions. -/
def create_surface (w h : Int) (s : WindowState) : WindowState :=
  { s with surface := some (w, h) }

/-- The `connect_drag_begin` handler: appends the press point to the
current stroke and queues a redraw. -/
def dragBegin (p : Point) (s : WindowState) : WindowState :=
  { s with currentStroke := s.currentStroke ++ [p], redrawQueued := true }

/-- The `connect_drag_update` handler: reads the first point of the current
stroke (`stroke.points().next().copied().unwrap()` — `none` here models the
panic when the stroke is empty), appends `anchor + delta`, and queues a
redraw. -/
def dragUpdateO (d : Point) (s : WindowState) : Option WindowState :=
  match s.currentStroke with
  | [] => none
  | p0 :: _ =>
      some { s with currentStroke := s.currentStroke ++ [Point.add p0 d],
                    redrawQueued := true }

/-- The `connect_drag_end` handler: takes the current stroke (leaving it
empty), pushes it onto `strokes`, queues a redraw, and calls `classify`. -/
def dragEnd (s : WindowState) : WindowState :=
  let stroke := s.currentStroke
  let s1 : WindowState :=
    { s with currentStroke := [], strokes := s.strokes ++ [stroke],
             redrawQueued := true }
  classify s1

/-- The `clear` template callback (reset button): recreates the surface at
the drawing area's current content dimensions, clears the finalized strokes
and the current stroke, and queues a redraw. -/
def clear (s : WindowState) : WindowState :=
  let s1 := create_surface s.canvasWidth s.canvasHeight s
  { s1 with strokes := [], currentStroke := [], redrawQueued := true }

/-- The UI events the claims quantify over. -/
inductive Event where
  | dragBegin (p : Point)
  | dragUpdate (d : Point)
  | dragEnd
  | reset
  deriving DecidableEq, Repr

/-- One event step; `none` models a panic in the handler. -/
def step : Event → WindowState → Option WindowState
  | .dragBegin p, s => some (dragBegin p s)
  | .dragUpdate d, s => dragUpdateO d s
  | .dragEnd, s => some (dragEnd s)
  | .reset, s => some (clear s)

/-- Run a sequence of events from a state; `none` if any handler panics. -/
def runEvents : List Event → WindowState → Option WindowState
  | [], s => some s
  | e :: rest, s =>
      match step e s with
      | none => none
      | some s1 => runEvents rest s1

/-- Whether the finalized list holds an empty stroke (negation of the
spec's invariant), on the optional result of a run. -/
def hasEmptyFinalized : Option WindowState → Bool
  | none => false
  | some s => s.strokes.any List.isEmpty

/-- Whether every finalized stroke of a state is non-empty. -/
def noEmptyFinalized (s : WindowState) : Bool :=
  s.strokes.all (fun st => !st.isEmpty)

/-- Well-formedness of an event sequence, tracking whether a drag is
active: drag-begin only while idle, drag-update and drag-end only while
dragging, reset only while idle (the framework guarantees well-formed
begin/update*/end nesting; reset is restricted to outside an active drag). -/
def wfEvents : Bool → List Event → Bool
  | _, [] => true
  | b, .dragBegin _ :: rest => !b && wfEvents true rest
  | b, .dragUpdate _ :: rest => b && wfEvents true rest
  | b, .dragEnd :: rest => b && wfEvents false rest
  | b, .reset :: rest => !b && wfEvents false rest

/-- Modelled from the spec: `detexify::StrokeSample::new` (the detexify
crate is not under `src/`) — "a non-empty ordered collection of finalized
Strokes"; "construction fails (yields nothing) when given zero strokes".
The sample carries the strokes it was built from. -/
def StrokeSample.new (strokes : List Stroke) : Option (List Stroke) :=
  if strokes = [] then none else some strokes

/-- One iteration's classification result in the worker loop: build a
`StrokeSample` (empty input ⇒ `none`), run the classifier (`cl`, the opaque
`detexify::Classifier::classify`, which may abstain), and
`unwrap_or_default()` the optional score list. -/
def workerProcess (cl : List Stroke → Option (List Score))
    (req : List Stroke) : List Score :=
  let classifications : Option (List Score) :=
    match StrokeSample.new req with
    | none => none
    | some sample => cl sample
  classifications.getD []

/-- Channel operations performed by the worker loop, in order. `exitClean`
is the loop's normal return after the receive that observes the closed,
drained channel. -/
inductive WorkerOp where
  | recv
  | send (r : List Score)
  | exitClean
  deriving DecidableEq, Repr

/-- The trace of channel operations of the worker loop run against a
request channel whose producer is dropped after queueing `reqs`: each
queued request is received and its (possibly empty) result sent; the final
receive observes the closed, empty channel and the loop returns. -/
def workerTrace (cl : List Stroke → Option (List Score)) :
    List (List Stroke) → List WorkerOp
  | [] => [.recv, .exitClean]
  | r :: rest => .recv :: .send (workerProcess cl r) :: workerTrace cl rest

/-- The result-projection loop's handling of one received result: clear the
display list (`remove_all`), then append the ids of the first 25 scores in
order (`classifications.iter().take(25)`). The previous display contents do
not feed into the new ones. -/
def uiConsume (r : List Score) (_displayed : List String) : List String :=
  let afterClear : List String := []
  afterClear ++ (r.take 25).map Score.id

/-- Drawing primitives issued by the draw function, abstracting Cairo. -/
inductive DrawCmd where
  | segment (p q : Point)
  | dot (p : Point)
  deriving DecidableEq, Repr

/-- Consecutive point pairs of a stroke, as `points().tuple_windows()`. -/
def pairsWindows : List Point → List (Point × Point)
  | p :: q :: rest => (p, q) :: pairsWindows (q :: rest)
  | _ => []

/-- The per-stroke part of `set_draw_func`: draw a segment for each pair of
consecutive points; if no segment was drawn (`!looped`) and the stroke has
exactly one point, draw a small filled circle at that point instead. -/
def renderStroke (st : Stroke) : List DrawCmd :=
  let segs := (pairsWindows st).map (fun pq => DrawCmd.segment pq.1 pq.2)
  let looped := !segs.isEmpty
  if !looped && st.length == 1 then
    match st with
    | p :: _ => segs ++ [DrawCmd.dot p]
    | [] => segs
  else
    segs

/-- State of the request/result channel pair between the UI thread and the
worker thread: the FIFO request queue, the capacity-1 result slot, and the
results already consumed by the projection loop, oldest first. -/
structure PipeState where
  reqQueue : List (List Stroke)
  resSlot : List (List Score)
  consumed : List (List Score)
  deriving DecidableEq, Repr

/-- Pipeline state with `reqs` submitted and nothing yet processed. -/
def pipeInit (reqs : List (List Stroke)) : PipeState :=
  { reqQueue := reqs, resSlot := [], consumed := [] }

/-- Interleaved execution steps of the pipeline: the worker receives the
oldest queued request, classifies it, and sends the result into the empty
result slot (`send_blocking` blocks while the slot is full, so a worker
step requires it empty); the UI task receives the slot's result and
consumes it. -/
inductive PipeStep (cl : List Stroke → Option (List Score)) :
    PipeState → PipeState → Prop
  | worker (r : List Stroke) (rest : List (List Stroke))
      (c : List (List Score)) :
      PipeStep cl { reqQueue := r :: rest, resSlot := [], consumed := c }
        { reqQueue := rest, resSlot := [workerProcess cl r], consumed := c }
  | ui (q : List (List Stroke)) (x : List Score) (c : List (List Score)) :
      PipeStep cl { reqQueue := q, resSlot := [x], consumed := c }
        { reqQueue := q, resSlot := [], consumed := c ++ [x] }

/-- Reachability under any interleaving of pipeline steps. -/
inductive PipeReach (cl : List Stroke → Option (List Score)) :
    PipeState → PipeState → Prop
  | refl (s : PipeState) : PipeReach cl s s
  | tail {a b c : PipeState} :
      PipeReach cl a b → PipeStep cl b c → PipeReach cl a c

/-- A classifier that always abstains, for concrete instantiations. -/
def clNone : List Stroke → Option (List Score) := fun _ => none

/-- A one-stroke, one-point request, for concrete instantiations. -/
def reqW : List Stroke := [[Point.mk 0 0]]

theorem workerTrace_count_exit (cl : List Stroke → Option (List Score))
    (reqs : List (List Stroke)) :
    (workerTrace cl reqs).count WorkerOp.exitClean = 1 := by
  induction reqs with
  | nil => rfl
  | cons r rest ih => simp [workerTrace, List.count_cons, ih]

theorem getLast?_cons_of_getLast? {α : Type} {l : List α} {v : α}
    (h : l.getLast? = some v) (a : α) : (a :: l).getLast? = some v := by
  cases l with
  | nil => simp at h
  | cons b t => exact h

theorem workerTrace_getLast (cl : List Stroke → Option (List Score))
    (reqs : List (List Stroke)) :
    (workerTrace cl reqs).getLast? = some WorkerOp.exitClean := by
  induction reqs with
  | nil => rfl
  | cons r rest ih =>
      exact getLast?_cons_of_getLast? (getLast?_cons_of_getLast? ih _) _

theorem pipe_invariant (cl : List Stroke → Option (List Score))
    (s0 s : PipeState) (h : PipeReach cl s0 s) :
    s.consumed ++ (s.resSlot ++ s.reqQueue.map (workerProcess cl)) =
      s0.consumed ++ (s0.resSlot ++ s0.reqQueue.map (workerProcess cl)) := by
  induction h with
  | refl => rfl
  | tail hab hbc ih =>
      rw [← ih]
      cases hbc with
      | worker r rest c => simp
      | ui q x c => simp

theorem runEvents_wf_noEmpty (evs : List Event) :
    ∀ (b : Bool) (s s2 : WindowState),
      wfEvents b evs = true →
      (b = true → s.currentStroke ≠ []) →
      (b = false → s.currentStroke = []) →
      noEmptyFinalized s = true →
      runEvents evs s = some s2 →
      noEmptyFinalized s2 = true := by
  induction evs with
  | nil =>
      intro b s s2 _ _ _ hne hrun
      simp only [runEvents, Option.some.injEq] at hrun
      exact hrun ▸ hne
  | cons e rest ih =>
      intro b s s2 hwf h1 h0 hne hrun
      cases e with
      | dragBegin p =>
          simp only [wfEvents, Bool.and_eq_true, Bool.not_eq_true'] at hwf
          simp only [runEvents, step] at hrun
          refine ih true _ s2 hwf.2 ?_ ?_ ?_ hrun
          · intro _
            simp [dragBegin, h0 hwf.1]
          · intro hcontra
            cases hcontra
          · simpa [noEmptyFinalized, dragBegin] using hne
      | dragUpdate d =>
          simp only [wfEvents, Bool.and_eq_true] at hwf
          cases hc : s.currentStroke with
          | nil => exact absurd hc (h1 hwf.1)
          | cons p0 t =>
              simp only [runEvents, step, dragUpdateO, hc] at hrun
              refine ih true _ s2 hwf.2 ?_ ?_ ?_ hrun
              · intro _
                simp
              · intro hcontra
                cases hcontra
              · simpa [noEmptyFinalized] using hne
      | dragEnd =>
          simp only [wfEvents, Bool.and_eq_true] at hwf
          simp only [runEvents, step] at hrun
          refine ih false _ s2 hwf.2 ?_ ?_ ?_ hrun
          · intro hcontra
            cases hcontra
          · intro _
            rfl
          · have hcur := h1 hwf.1
            simp only [noEmptyFinalized, dragEnd, classify, List.all_append,
              Bool.and_eq_true, List.all_cons, List.all_nil, Bool.and_true] at *
            exact ⟨hne, by simpa [List.isEmpty_iff] using hcur⟩
      | reset =>
          simp only [wfEvents, Bool.and_eq_true, Bool.not_eq_true'] at hwf
          simp only [runEvents, step] at hrun
          refine ih false _ s2 hwf.2 ?_ ?_ ?_ hrun
          · intro hcontra
            cases hcontra
          · intro _
            rfl
          · rfl

/-- C1: a drag-update appends the gesture anchor (the first point of the
in-progress stroke) plus the delta — never the previous point plus the
delta and never a cumulative sum: after a begin at `a` and two updates with
deltas `d1`, `d2`, the stroke is `[a, a+d1, a+d2]` (both updates resolved
against the anchor `a`). -/
theorem C1_update_is_anchor_plus_delta :
    (∀ (s : WindowState) (d p0 : Point),
        s.currentStroke.head? = some p0 →
        (dragUpdateO d s).map WindowState.currentStroke =
          some (s.currentStroke ++ [Point.add p0 d])) ∧
    (∀ a d1 d2 : Point,
        (runEvents [.dragBegin a, .dragUpdate d1, .dragUpdate d2]
              init0).map WindowState.currentStroke =
          some [a, Point.add a d1, Point.add a d2]) := by
  constructor
  · intro s d p0 h
    cases hc : s.currentStroke with
    | nil => simp [hc] at h
    | cons q t =>
        rw [hc] at h
        simp only [List.head?_cons, Option.some.injEq] at h
        subst h
        simp [dragUpdateO, hc]
  · intro a d1 d2
    rfl

/-- C1 witness: with anchor `(10,10)` and update delta `(5,5)` the recorded
point is `(15,15)`. -/
theorem C1_witness :
    (dragUpdateO (Point.mk 5 5)
          { init0 with currentStroke := [Point.mk 10 10] }).map
        WindowState.currentStroke =
      some [Point.mk 10 10, Point.mk 15 15] := by
  have h := C1_update_is_anchor_plus_delta.1
    { init0 with currentStroke := [Point.mk 10 10] }
    (Point.mk 5 5) (Point.mk 10 10) rfl
  have e : Point.add (Point.mk 10 10) (Point.mk 5 5) = Point.mk 15 15 := by
    simp only [Point.add, Point.mk.injEq]
    norm_num
  rw [e] at h
  exact h

/-- C2 counterexample: the event sequence drag-begin `(10,10)`, reset,
drag-end runs without panicking and leaves an empty stroke in the
finalized list — drag-end pushes the current stroke unconditionally, and
the reset emptied it mid-drag. -/
theorem C2_counterexample :
    hasEmptyFinalized
      (runEvents [.dragBegin (Point.mk 10 10), .reset, .dragEnd] init0) =
      true := by
  decide

/-- C2 (amended): for every well-formed event sequence — drags properly
nested and reset invoked only while no drag is active — every stroke in
the finalized list is non-empty. -/
theorem C2_no_empty_finalized_stroke (evs : List Event) (s2 : WindowState)
    (hwf : wfEvents false evs = true)
    (hrun : runEvents evs init0 = some s2) :
    noEmptyFinalized s2 = true :=
  runEvents_wf_noEmpty evs false init0 s2 hwf
    (fun h => nomatch h) (fun _ => rfl) rfl hrun

/-- C2 witness: running drag-begin `(0,0)` then drag-end leaves exactly one
finalized stroke, and no finalized stroke is empty. -/
theorem C2_witness :
    noEmptyFinalized
      { strokes := [[Point.mk 0 0]], currentStroke := [], surface := none,
        canvasWidth := 300, canvasHeight := 300,
        requests := [[[Point.mk 0 0]]], displayed := [],
        redrawQueued := true } = true :=
  C2_no_empty_finalized_stroke [.dragBegin (Point.mk 0 0), .dragEnd]
    { strokes := [[Point.mk 0 0]], currentStroke := [], surface := none,
      canvasWidth := 300, canvasHeight := 300,
      requests := [[[Point.mk 0 0]]], displayed := [],
      redrawQueued := true }
    (by decide) (by decide)

/-- C3: every drag-end appends the completed stroke to the finalized list,
clears the in-progress stroke, and submits exactly one request whose
payload is the entire finalized list after the append (so the in-progress
stroke, now empty, is not part of the snapshot). -/
theorem C3_dragEnd_appends_and_submits (s : WindowState) :
    (dragEnd s).strokes = s.strokes ++ [s.currentStroke] ∧
    (dragEnd s).currentStroke = [] ∧
    (dragEnd s).requests =
      s.requests ++ [s.strokes ++ [s.currentStroke]] ∧
    (dragEnd s).requests.length = s.requests.length + 1 := by
  refine ⟨rfl, rfl, rfl, ?_⟩
  simp [dragEnd, classify]

/-- C4: a request with an empty stroke list (StrokeSample construction
fails) or on which the classifier abstains produces the empty ranked
result; projecting it clears the display, and the worker loop still runs
to its single clean exit. -/
theorem C4_degenerate_request_empty_result
    (cl : List Stroke → Option (List Score)) (req : List Stroke)
    (h : req = [] ∨ cl req = none) :
    workerProcess cl req = [] ∧
    (∀ d : List String, uiConsume (workerProcess cl req) d = []) ∧
    (∀ rest : List (List Stroke),
        (workerTrace cl (req :: rest)).count WorkerOp.exitClean = 1) := by
  have hwp : workerProcess cl req = [] := by
    by_cases hreq : req = []
    · simp [workerProcess, StrokeSample.new, hreq]
    · rcases h with h | h
      · exact absurd h hreq
      · simp [workerProcess, StrokeSample.new, hreq, h]
  refine ⟨hwp, ?_, ?_⟩
  · intro d
    rw [hwp]
    rfl
  · intro rest
    exact workerTrace_count_exit cl (req :: rest)

/-- C4 witness: the abstaining classifier on the concrete one-stroke
request yields the empty ranked result. -/
theorem C4_witness : workerProcess clNone reqW = [] :=
  (C4_degenerate_request_empty_result clNone reqW (Or.inr rfl)).1

/-- C5: consuming a ranked result replaces the display list independently
of its previous contents with exactly the first `min 25 (length r)` ids,
in order; indices at 25 and beyond are discarded. -/
theorem C5_projection_truncates (r : List Score) (old : List String) :
    uiConsume r old = uiConsume r [] ∧
    (uiConsume r old).length = min 25 r.length ∧
    (∀ i : Nat,
        (uiConsume r old)[i]? =
          if i < 25 then r[i]?.map Score.id else none) := by
  refine ⟨rfl, ?_, ?_⟩
  · simp [uiConsume]
  · intro i
    by_cases h : i < 25
    · simp [uiConsume, List.getElem?_take, h]
    · have hlen : ((r.take 25).map Score.id).length ≤ i := by
        simp only [List.length_map, List.length_take]
        omega
      simp only [uiConsume, List.nil_append,
        List.getElem?_eq_none_iff.mpr hlen, h, if_false]

/-- C6: in every reachable pipeline state, the consumed results followed by
the in-flight result and the results of the still-queued requests are
exactly the per-request results of all submitted requests, in submission
order — so the UI consumes results in submission order, the i-th consumed
result is the i-th request's result, and no request is skipped, coalesced,
cancelled or reordered (the unconsumed remainder accounts for every
submitted request). -/
theorem C6_fifo_order (cl : List Stroke → Option (List Score))
    (reqs : List (List Stroke)) (s : PipeState)
    (h : PipeReach cl (pipeInit reqs) s) :
    s.consumed ++ (s.resSlot ++ s.reqQueue.map (workerProcess cl)) =
      reqs.map (workerProcess cl) ∧
    (∀ i : Nat, i < s.consumed.length →
        s.consumed[i]? = (reqs.map (workerProcess cl))[i]?) ∧
    s.consumed.length + (s.resSlot.length + s.reqQueue.length) =
      reqs.length := by
  have hinv := pipe_invariant cl (pipeInit reqs) s h
  simp only [pipeInit, List.nil_append] at hinv
  refine ⟨hinv, ?_, ?_⟩
  · intro i hi
    rw [← hinv, List.getElem?_append_left hi]
  · have hlen := congrArg List.length hinv
    simp only [List.length_append, List.length_map] at hlen
    omega

/-- C6 witness: submitting the single one-stroke request and running the
worker step then the UI step consumes exactly that request's result. -/
theorem C6_witness :
    (PipeState.mk [] [] [workerProcess clNone reqW]).consumed ++
        ((PipeState.mk [] [] [workerProcess clNone reqW]).resSlot ++
          (PipeState.mk [] [] [workerProcess clNone reqW]).reqQueue.map
            (workerProcess clNone)) =
      [reqW].map (workerProcess clNone) :=
  (C6_fifo_order clNone [reqW]
      (PipeState.mk [] [] [workerProcess clNone reqW])
      (PipeReach.tail
        (PipeReach.tail (PipeReach.refl _) (PipeStep.worker reqW [] []))
        (PipeStep.ui [] (workerProcess clNone reqW) []))).1

/-- C7: reset (the `clear` callback) empties the finalized list and the
in-progress stroke, recreates the surface at the canvas's current
dimensions and queues a redraw, while leaving the queued classification
requests, the displayed result list and the canvas dimensions unchanged —
so a result arriving after the reset projects exactly as it would have
before it. -/
theorem C7_reset_frame (s : WindowState) :
    (clear s).strokes = [] ∧
    (clear s).currentStroke = [] ∧
    (clear s).surface = some (s.canvasWidth, s.canvasHeight) ∧
    (clear s).redrawQueued = true ∧
    (clear s).requests = s.requests ∧
    (clear s).displayed = s.displayed ∧
    (clear s).canvasWidth = s.canvasWidth ∧
    (clear s).canvasHeight = s.canvasHeight ∧
    (∀ r : List Score,
        uiConsume r (clear s).displayed = uiConsume r s.displayed) :=
  ⟨rfl, rfl, rfl, rfl, rfl, rfl, rfl, rfl, fun _ => rfl⟩

/-- C8: drag-begin at `p` immediately followed by drag-end finalizes the
one-point stroke `[p]`, and the renderer draws a one-point stroke as a
single filled dot, not a segment. -/
theorem C8_single_point_dot (p : Point) :
    (runEvents [.dragBegin p, .dragEnd] init0).map WindowState.strokes =
      some [[p]] ∧
    renderStroke [p] = [DrawCmd.dot p] :=
  ⟨rfl, rfl⟩

/-- C9: run against a closed request channel, the worker performs one
receive and exits when the queue is empty, and for any queue contents its
trace contains exactly one clean exit, which is its final operation — no
channel operation follows it. -/
theorem C9_clean_shutdown (cl : List Stroke → Option (List Score)) :
    workerTrace cl [] = [WorkerOp.recv, WorkerOp.exitClean] ∧
    (∀ reqs : List (List Stroke),
        (workerTrace cl reqs).count WorkerOp.exitClean = 1 ∧
        (workerTrace cl reqs).getLast? = some WorkerOp.exitClean) :=
  ⟨rfl, fun reqs =>
    ⟨workerTrace_count_exit cl reqs, workerTrace_getLast cl reqs⟩⟩

/-- C10: the sequence drag-begin `(10,10)`, reset, drag-update `(5,5)`
makes the drag-update handler unwrap the first point of the now-empty
in-progress stroke (a panic, modelled as `none`); and the handler is
panic-free whenever the in-progress stroke is non-empty. -/
theorem C10_update_after_reset_panics :
    runEvents [.dragBegin (Point.mk 10 10), .reset,
        .dragUpdate (Point.mk 5 5)] init0 = none ∧
    (∀ (d : Point) (s : WindowState),
        s.currentStroke ≠ [] → (dragUpdateO d s).isSome = true) := by
  constructor
  · rfl
  · intro d s h
    cases hc : s.currentStroke with
    | nil => exact absurd hc h
    | cons p0 t => simp [dragUpdateO, hc]

/-- C10 witness: on a state whose in-progress stroke is the single point
`(10,10)`, the drag-update handler succeeds. -/
theorem C10_witness :
    (dragUpdateO (Point.mk 5 5)
        { init0 with currentStroke := [Point.mk 10 10] }).isSome = true :=
  C10_update_after_reset_panics.2 (Point.mk 5 5)
    { init0 with currentStroke := [Point.mk 10 10] }
    (List.cons_ne_nil _ _)
